import Mathlib

/-!
Shallow embedding of the `tsupasswd` vault CLI (`src/main.rs`).

The program is a single-file Rust CLI storing website credentials and passkey
records in SQLite, encrypting password fields with a per-entry derived key and
gating operations behind a session-expiry file.  Here the SQLite tables are
embedded as Lean lists of records, the session file as an `Option Int`
(absolute expiry timestamp), the OS random source as an explicit oracle
`rng : Nat → Nat`, and fallible operations return `Except`.

The cryptographic primitives (HKDF-SHA256 and ChaCha20-Poly1305) live in
external crates, not in this repository; they are modelled from the spec as an
ideal deterministic key derivation and an ideal authenticated cipher (see the
doc comments marked "Modelled from the spec").  Everything else is translated
directly from `src/main.rs`.
-/

namespace Tsupasswd

/-! ## Password generation (`generate_password`, `rand_index`, `fisher_yates_shuffle`) -/

/-- Rust `const UPPER: &[u8] = b"ABCDEFGHIJKLMNOPQRSTUVWXYZ"` (main.rs line 627). -/
def UPPER : List Char := "ABCDEFGHIJKLMNOPQRSTUVWXYZ".data

/-- Rust `const LOWER: &[u8] = b"abcdefghijklmnopqrstuvwxyz"` (main.rs line 628). -/
def LOWER : List Char := "abcdefghijklmnopqrstuvwxyz".data

/-- Rust `const DIGIT: &[u8] = b"0123456789"` (main.rs line 629). -/
def DIGIT : List Char := "0123456789".data

/-- The combined alphabet built at the start of `generate_password`
(main.rs lines 635-638): `UPPER ++ LOWER ++ DIGIT`. -/
def alphabet : List Char := UPPER ++ LOWER ++ DIGIT

/-- Rust `rand_index` (main.rs lines 664-675).  The source draws `u64` values from
`OsRng` in a rejection-sampling loop and returns the first accepted value
modulo `len`; the randomness is externalized, so `v` stands for that first
accepted draw.  `len <= 1` returns 0 exactly as in the source. -/
def rand_index (v : Nat) (len : Nat) : Nat :=
  if len ≤ 1 then 0 else v % len

/-- One `cat[rand_index(cat.len())]` selection from a character class. -/
def pickFrom (v : Nat) (cs : List Char) : Char :=
  cs.getD (rand_index v cs.length) 'A'

/-- The category array `[UPPER, LOWER, DIGIT]` iterated by the first loop of
`generate_password` (main.rs line 646). -/
def catList : List (List Char) := [UPPER, LOWER, DIGIT]

/-- The first loop of `generate_password` (main.rs lines 645-650): push one
character from each category while fewer than `len` bytes are collected, so
exactly `min 3 len` picks, consuming rng calls `0, 1, ...`. -/
def catPicks (rng : Nat → Nat) (len : Nat) : List Char :=
  (List.range (min 3 len)).map (fun i => pickFrom (rng i) (catList.getD i []))

/-- The second loop of `generate_password` (main.rs lines 653-656): fill the
remaining `cnt` positions from the full alphabet, consuming rng calls
`start, start+1, ...`. -/
def fillPicks (rng : Nat → Nat) (start cnt : Nat) : List Char :=
  (List.range cnt).map (fun i => pickFrom (rng (start + i)) alphabet)

/-- Rust `data.swap(i, j)` on a byte vector: `tmp = data[i]; data[i] = data[j];
data[j] = tmp`. -/
def listSwap (l : List Char) (i j : Nat) : List Char :=
  (l.set i (l.getD j 'A')).set j (l.getD i 'A')

/-- The countdown loop of `fisher_yates_shuffle` (main.rs lines 679-682):
`for i in (1..data.len()).rev() { let j = rand_index(i + 1); data.swap(i, j) }`,
with `ctr` tracking the index of the next rng draw. -/
def fyAux (rng : Nat → Nat) : Nat → List Char → Nat → List Char
  | _, l, 0 => l
  | ctr, l, i + 1 =>
    fyAux rng (ctr + 1) (listSwap l (i + 1) (rand_index (rng ctr) (i + 2))) i

/-- Rust `fisher_yates_shuffle` (main.rs lines 677-683): returns the input unchanged
when `data.len() <= 1`, otherwise runs the swap loop from `len - 1` down to 1. -/
def fisher_yates_shuffle (rng : Nat → Nat) (ctr : Nat) (l : List Char) : List Char :=
  if l.length ≤ 1 then l else fyAux rng ctr l (l.length - 1)

/-- Body of `generate_password` (main.rs lines 633-662) at the byte level:
empty for `len = 0`; otherwise one pick per category (up to `len`), a fill
phase from the full alphabet, then the Fisher-Yates shuffle.  The rng call
counter reaches `len` before the shuffle starts. -/
def genBytes (rng : Nat → Nat) (len : Nat) : List Char :=
  if len = 0 then []
  else fisher_yates_shuffle rng len (catPicks rng len ++ fillPicks rng (min 3 len) (len - min 3 len))

/-- Rust `generate_password` (main.rs lines 633-662). -/
def generate_password (rng : Nat → Nat) (len : Nat) : String :=
  String.mk (genBytes rng len)

/-! ## Integer parsing (`str::parse::<usize>` / `::<i64>`) -/

/-- Decimal value of an ASCII digit. -/
def digitVal (c : Char) : Nat := c.toNat - 48

/-- Parse a non-empty all-digit character list as a decimal number. -/
def decDigits? (cs : List Char) : Option Nat :=
  if cs.isEmpty then none
  else if cs.all (fun c => c.isDigit) then
    some (cs.foldl (fun a c => a * 10 + digitVal c) 0)
  else none

/-- Rust `s.parse::<usize>()`: an optional leading `+`, then one or more ASCII
digits, value within the 64-bit unsigned range (overflow is a parse error). -/
def parseUsize (s : String) : Option Nat :=
  let cs := match s.data with
    | '+' :: rest => rest
    | other => other
  match decDigits? cs with
  | some n => if n < 2 ^ 64 then some n else none
  | none => none

/-- Rust `s.parse::<i64>()`: optional sign, one or more ASCII digits, value
within the signed 64-bit range. -/
def parseI64 (s : String) : Option Int :=
  match s.data with
  | '+' :: rest => (decDigits? rest).bind (fun n => if n < 2 ^ 63 then some (n : Int) else none)
  | '-' :: rest => (decDigits? rest).bind (fun n => if n ≤ 2 ^ 63 then some (-(n : Int)) else none)
  | other => (decDigits? other).bind (fun n => if n < 2 ^ 63 then some (n : Int) else none)

/-- The `add` command's password argument handling (main.rs lines 449-455):
a supplied third argument is parsed as `usize`; on success a password of
length `n.max(1)` is generated, otherwise the argument itself is the
password. -/
def add_password_arg (rng : Nat → Nat) (s : String) : String :=
  match parseUsize s with
  | some n => generate_password rng (max n 1)
  | none => s

/-! ## Crypto model (`derive_key_for_id`, `encrypt_for_id`, `decrypt_for_id`) -/

/-- Error taxonomy of the vault core.  The source signals these as strings
("環境変数 AUTH_SECRET が未設定です", "データ長が不正です", "decrypt error: …",
"id=… が見つかりません", and the session messages of `ensure_authenticated`). -/
inductive VaultErr where
  | missingSecret
  | malformedCiphertext
  | decryptFailure
  | notFound (id : String)
  | sessionExpired
  | unauthenticated
deriving DecidableEq

/-- Modelled from the spec: `HKDF-SHA256(salt = id, ikm = secret)` with the
fixed info label (main.rs lines 1164-1170, crate `hkdf`).  The derivation is
deterministic in `(secret, id)` and the spec treats distinct pairs as
yielding distinct keys (key isolation), so a key is represented by the pair
itself. -/
structure DerivedKey where
  secret : String
  id : String
deriving DecidableEq

/-- Rust `derive_key_for_id` (main.rs lines 1164-1170): fails when the `AUTH_SECRET`
environment value is absent, otherwise derives the per-entry key. -/
def derive_key_for_id (secret : Option String) (id : String) : Except VaultErr DerivedKey :=
  match secret with
  | none => .error .missingSecret
  | some s => .ok ⟨s, id⟩

/-- Modelled from the spec: the stored TEXT of a password column.  A `blob` is
`base64(nonce ‖ ChaCha20-Poly1305(key, nonce, pt))` produced by
`encrypt_for_id` (crate `chacha20poly1305`); `raw` is any stored string that is
not a well-formed sealed blob (bad base64, too short, or corrupted). -/
inductive Ct where
  | blob (nonce : Nat) (key : DerivedKey) (pt : String)
  | raw (s : String)
deriving DecidableEq

/-- The literal string sitting in the database column for a ciphertext; for a
sealed blob this is its base64 text, represented symbolically. -/
def Ct.stored : Ct → String
  | .blob nonce key pt => "b64:" ++ toString nonce ++ ":" ++ key.id ++ ":" ++ pt
  | .raw s => s

/-- Rust `encrypt_for_id` (main.rs lines 1172-1189): derives the key for `id` and
seals the plaintext under a fresh random nonce (externalized as `nonce`). -/
def encrypt_for_id (secret : Option String) (nonce : Nat) (id : String) (pt : String) :
    Except VaultErr Ct :=
  (derive_key_for_id secret id).map (fun key => Ct.blob nonce key pt)

/-- Rust `decrypt_for_id` (main.rs lines 1191-1202): base64-decode (a `raw` string
fails here or at the authentication check), derive the key for `id`, and open;
a blob sealed under a different key fails authentication.  The model does not
distinguish the bad-base64, short-data and failed-authentication errors of a
`raw` string and reports `malformedCiphertext` for all of them. -/
def decrypt_for_id (secret : Option String) (id : String) (ct : Ct) : Except VaultErr String :=
  match ct with
  | .raw _ => .error .malformedCiphertext
  | .blob _ key pt =>
    (derive_key_for_id secret id).bind
      (fun k => if key = k then .ok pt else .error .decryptFailure)

/-! ## Records and ordering -/

/-- Rust `PasswordRecord` (main.rs lines 736-747); `password` holds the ciphertext. -/
structure PasswordRecord where
  id : String
  url : String
  username : String
  password : Ct
  title : Option String
  note : Option String
  created_at : String
deriving DecidableEq

/-- Rust `PasskeyRecord` (main.rs lines 1006-1019). -/
structure PasskeyRecord where
  id : String
  rp_id : String
  credential_id : String
  user_handle : String
  public_key : String
  sign_count : Int
  title : Option String
  transports : Option String
  created_at : String
deriving DecidableEq

/-- Byte-wise strict order on character lists: SQLite's BINARY collation and
Rust's `String::cmp`, both plain byte comparisons (codepoint order here, which
coincides on the ASCII ids and RFC3339 timestamps involved). -/
def chListLt : List Char → List Char → Bool
  | [], [] => false
  | [], _ :: _ => true
  | _ :: _, [] => false
  | a :: as, b :: bs => if a < b then true else if b < a then false else chListLt as bs

/-- Strict string order used for `ORDER BY … DESC` and `sort_by(cmp)`. -/
def strLt (a b : String) : Bool := chListLt a.data b.data

/-! ## Credential store operations -/

/-- The lookup `SELECT id, title, note, created_at FROM passwords WHERE url=?1
ORDER BY created_at DESC LIMIT 1` of `insert_password` (main.rs lines
798-812): among the rows with this url, one with maximal `created_at`
(SQLite leaves ties unspecified; the model keeps the earliest such row).
`latestStep` is one fold step keeping the row with the larger `created_at`. -/
def latestStep (acc : Option PasswordRecord) (r : PasswordRecord) : Option PasswordRecord :=
  match acc with
  | none => some r
  | some b => if strLt b.created_at r.created_at then some r else some b

/-- The row selected by `… WHERE url=?1 ORDER BY created_at DESC LIMIT 1`. -/
def latestByUrl (db : List PasswordRecord) (url : String) : Option PasswordRecord :=
  (db.filter (fun r => r.url = url)).foldl latestStep none

/-- Rust `insert_password` (main.rs lines 789-852).  If a row with this url exists,
the most recent one is updated in place: username and encrypted password are
overwritten, title/note take a supplied value or keep the existing one, and
the SQL UPDATE touches neither `id` nor `created_at`.  Otherwise a new row
with the fresh uuid `freshId` and timestamp `now` is inserted. -/
def insert_password (secret : Option String) (nonce : Nat) (freshId now : String)
    (db : List PasswordRecord) (url username password : String)
    (title note : Option String) :
    Except VaultErr (List PasswordRecord × PasswordRecord) :=
  match latestByUrl db url with
  | some e =>
    let newTitle := match title with | some t => some t | none => e.title
    let newNote := match note with | some n => some n | none => e.note
    (encrypt_for_id secret nonce e.id password).map (fun encPw =>
      (db.map (fun r =>
          if r.id = e.id then
            { r with username := username, password := encPw,
                     title := newTitle, note := newNote }
          else r),
       { id := e.id, url := url, username := username, password := encPw,
         title := newTitle, note := newNote, created_at := e.created_at }))
  | none =>
    (encrypt_for_id secret nonce freshId password).map (fun encPw =>
      let rec0 : PasswordRecord :=
        { id := freshId, url := url, username := username, password := encPw,
          title := title, note := note, created_at := now }
      (db ++ [rec0], rec0))

/-- The per-row password shown by every read path: `decrypt_for_id(&id,
&enc_pw).unwrap_or(enc_pw)` (main.rs lines 862, 884, 973) — the decrypted
plaintext, or the raw stored ciphertext string when decryption fails. -/
def pwShown (secret : Option String) (r : PasswordRecord) : String :=
  match decrypt_for_id secret r.id r.password with
  | .ok p => p
  | .error _ => r.password.stored

/-- Rust `fetch_by_url` (main.rs lines 854-868): all rows whose url matches
exactly, each as `(username, password-or-ciphertext, title, note)`. -/
def fetch_by_url (secret : Option String) (db : List PasswordRecord) (url : String) :
    List (String × String × Option String × Option String) :=
  (db.filter (fun r => r.url = url)).map
    (fun r => (r.username, pwShown secret r, r.title, r.note))

/-- ASCII lower-casing of a string, as SQLite's `LIKE` folds ASCII case. -/
def lowerStr (s : String) : List Char := s.data.map Char.toLower

/-- Predicate `leadsWith n h` holds when `n` begins the list `h`. -/
def leadsWith : List Char → List Char → Bool
  | [], _ => true
  | _ :: _, [] => false
  | a :: as, b :: bs => a == b && leadsWith as bs

/-- Predicate `containsSub n h` holds when `n` occurs contiguously inside `h`. -/
def containsSub (needle : List Char) : List Char → Bool
  | [] => needle.isEmpty
  | c :: t => leadsWith needle (c :: t) || containsSub needle t

/-- One `column LIKE '%keyword%'` test of the search queries: ASCII
case-insensitive substring containment.  (`%`/`_` wildcard characters inside
the keyword itself are not modelled.) -/
def ciLike (field kw : String) : Bool := containsSub (lowerStr kw) (lowerStr field)

/-- The WHERE clause of `search_entries` (main.rs lines 872-876):
`id LIKE ?1 OR url LIKE ?1 OR username LIKE ?1 OR IFNULL(title,'') LIKE ?1 OR
IFNULL(note,'') LIKE ?1`. -/
def matchesKeyword (r : PasswordRecord) (kw : String) : Bool :=
  ciLike r.id kw || ciLike r.url kw || ciLike r.username kw ||
  ciLike (r.title.getD "") kw || ciLike (r.note.getD "") kw

/-- Rust `search_entries` (main.rs lines 870-892): keyword match over
id/url/username/title/note, password decrypted with ciphertext fallback, then
`out.sort_by(|a, b| b.0.cmp(&a.0))` — a stable sort descending by id. -/
def search_entries (secret : Option String) (db : List PasswordRecord) (kw : String) :
    List (String × String × String × String × Option String × Option String) :=
  ((db.filter (fun r => matchesKeyword r kw)).map
    (fun r => (r.id, r.url, r.username, pwShown secret r, r.title, r.note))).mergeSort
    (fun a b => !(strLt a.1 b.1))

/-- Rust `update_entry` (main.rs lines 894-933): load the row with this id (error
`id=… が見つかりません` when absent), apply exactly the supplied optional
fields — a new password is re-encrypted under the key for the row's own
(unchanged) id — and write url/username/password/title/note back with
`UPDATE … WHERE id=?6`; `created_at` is not written. -/
def update_entry (secret : Option String) (nonce : Nat) (db : List PasswordRecord)
    (id : String) (url username password title note : Option String) :
    Except VaultErr (List PasswordRecord × PasswordRecord) :=
  match db.find? (fun r => r.id = id) with
  | none => .error (.notFound id)
  | some cur =>
    (match password with
      | some v => encrypt_for_id secret nonce cur.id v
      | none => .ok cur.password).map (fun newPw =>
      let upd : PasswordRecord :=
        { id := cur.id
          url := url.getD cur.url
          username := username.getD cur.username
          password := newPw
          title := match title with | some v => some v | none => cur.title
          note := match note with | some v => some v | none => cur.note
          created_at := cur.created_at }
      (db.map (fun r : PasswordRecord =>
        if r.id = id then
          { r with url := upd.url, username := upd.username, password := upd.password,
                   title := upd.title, note := upd.note }
        else r), upd))

/-- Rust `delete_entry` (main.rs lines 935-938): `DELETE FROM passwords WHERE
id=?1`, ignoring how many rows matched — always succeeds. -/
def delete_entry (db : List PasswordRecord) (id : String) :
    Except VaultErr (List PasswordRecord) :=
  .ok (db.filter (fun r => r.id ≠ id))

/-- Rust `export_csv` (main.rs lines 952-986): a fixed header row, then all rows
ordered by `created_at` descending, password decrypted with ciphertext
fallback and optional fields defaulting to the empty string. -/
def export_csv (secret : Option String) (db : List PasswordRecord) : List (List String) :=
  ["id", "url", "username", "password", "title", "note", "created_at"] ::
  (db.mergeSort (fun a b => !(strLt a.created_at b.created_at))).map (fun r =>
    [r.id, r.url, r.username, pwShown secret r, r.title.getD "", r.note.getD "", r.created_at])

/-! ## Passkey store operations -/

/-- Rust `insert_passkey` (main.rs lines 1021-1048): unconditionally inserts a new
row with fresh uuid `freshId` and timestamp `now` (no upsert). -/
def insert_passkey (freshId now : String) (db : List PasskeyRecord)
    (rp_id credential_id user_handle public_key : String) (sign_count : Int)
    (title transports : Option String) : List PasskeyRecord × PasskeyRecord :=
  let rec0 : PasskeyRecord :=
    { id := freshId, rp_id := rp_id, credential_id := credential_id,
      user_handle := user_handle, public_key := public_key, sign_count := sign_count,
      title := title, transports := transports, created_at := now }
  (db ++ [rec0], rec0)

/-- Rust `delete_passkey` (main.rs lines 1102-1108): `DELETE FROM passkeys WHERE
id=?1`, failing with `id=… が見つかりません` when zero rows were removed. -/
def delete_passkey (db : List PasskeyRecord) (id : String) :
    Except VaultErr (List PasskeyRecord) :=
  if db.countP (fun r => r.id = id) = 0 then .error (.notFound id)
  else .ok (db.filter (fun r => r.id ≠ id))

/-- The `--sign-count N` handling of `passkey add` (main.rs lines 246-256):
starts at 0; a flag value that parses as `i64` is clamped with `n.max(0)`. -/
def cli_sign_count (arg : Option String) : Int :=
  match arg.bind parseI64 with
  | some n => max n 0
  | none => 0

/-- The `sign_count` column handling of `import_passkeys_csv` (main.rs line
1155): `…and_then(|s| s.parse::<i64>().ok()).unwrap_or(0)` — the parsed value
is stored as-is, with no non-negativity clamp. -/
def import_sign_count (field : Option String) : Int :=
  (field.bind parseI64).getD 0

/-! ## Session guard -/

/-- Rust `start_session` (main.rs lines 712-719): writes
`expiry = now + ttl_minutes * 60` to the session file. -/
def start_session (now ttl : Int) : Option Int :=
  some (now + ttl * 60)

/-- Rust `session_status` (main.rs lines 727-734): `none` when no session file
exists, otherwise the remaining seconds `expiry - now`. -/
def session_status (now : Int) (sess : Option Int) : Option Int :=
  sess.map (fun expiry => expiry - now)

/-- Rust `ensure_authenticated` (main.rs lines 702-710): expired when the remaining
time is `<= 0`, unauthenticated when no session exists. -/
def ensure_authenticated (now : Int) (sess : Option Int) : Except VaultErr Unit :=
  match session_status now sess with
  | some rem => if rem ≤ 0 then .error .sessionExpired else .ok ()
  | none => .error .unauthenticated

/-! ## Theorems -/

theorem chListLt_irrefl (l : List Char) : chListLt l l = false := by
  induction l with
  | nil => rfl
  | cons a t ih => simp [chListLt, ih]

theorem chListLt_trans {a b c : List Char} (h1 : chListLt a b = true)
    (h2 : chListLt b c = true) : chListLt a c = true := by
  induction a generalizing b c with
  | nil =>
    cases b with
    | nil => simp [chListLt] at h1
    | cons q qs =>
      cases c with
      | nil => simp [chListLt] at h2
      | cons r rs => simp [chListLt]
  | cons p ps ih =>
    cases b with
    | nil => simp [chListLt] at h1
    | cons q qs =>
      cases c with
      | nil => simp [chListLt] at h2
      | cons r rs =>
        simp only [chListLt] at h1 h2 ⊢
        rcases lt_trichotomy p q with hpq | hpq | hpq
        · rcases lt_trichotomy q r with hqr | hqr | hqr
          · rw [if_pos (lt_trans hpq hqr)]
          · subst hqr; rw [if_pos hpq]
          · rw [if_neg (lt_asymm hqr), if_pos hqr] at h2; simp at h2
        · subst hpq
          rw [if_neg (lt_irrefl p), if_neg (lt_irrefl p)] at h1
          rcases lt_trichotomy p r with hpr | hpr | hpr
          · rw [if_pos hpr]
          · subst hpr
            rw [if_neg (lt_irrefl p), if_neg (lt_irrefl p)] at h2
            rw [if_neg (lt_irrefl p), if_neg (lt_irrefl p)]
            exact ih h1 h2
          · rw [if_neg (lt_asymm hpr), if_pos hpr] at h2; simp at h2
        · rw [if_neg (lt_asymm hpq), if_pos hpq] at h1; simp at h1

theorem chListLt_trichotomy (a b : List Char) :
    chListLt a b = true ∨ a = b ∨ chListLt b a = true := by
  induction a generalizing b with
  | nil =>
    cases b with
    | nil => exact Or.inr (Or.inl rfl)
    | cons q qs => exact Or.inl (by simp [chListLt])
  | cons p ps ih =>
    cases b with
    | nil => exact Or.inr (Or.inr (by simp [chListLt]))
    | cons q qs =>
      rcases lt_trichotomy p q with h | h | h
      · exact Or.inl (by simp [chListLt, h])
      · subst h
        rcases ih qs with h2 | h2 | h2
        · exact Or.inl (by simp [chListLt, h2])
        · exact Or.inr (Or.inl (by rw [h2]))
        · exact Or.inr (Or.inr (by simp [chListLt, h2]))
      · exact Or.inr (Or.inr (by simp [chListLt, h]))

theorem strLt_irrefl (a : String) : strLt a a = false := chListLt_irrefl a.data

theorem strLt_trans {a b c : String} (h1 : strLt a b = true) (h2 : strLt b c = true) :
    strLt a c = true := chListLt_trans h1 h2

theorem strLt_trichotomy (a b : String) : strLt a b = true ∨ a = b ∨ strLt b a = true := by
  rcases chListLt_trichotomy a.data b.data with h | h | h
  · exact Or.inl h
  · refine Or.inr (Or.inl ?_)
    cases a; cases b; exact congrArg String.mk (by simpa using h)
  · exact Or.inr (Or.inr h)

theorem foldl_latest_spec (L : List PasswordRecord) :
    ∀ b : PasswordRecord, ∃ e, L.foldl latestStep (some b) = some e ∧
      (e = b ∨ e ∈ L) ∧ strLt e.created_at b.created_at = false ∧
      ∀ r ∈ L, strLt e.created_at r.created_at = false := by
  induction L with
  | nil => exact fun b => ⟨b, rfl, Or.inl rfl, strLt_irrefl _, by simp⟩
  | cons r t ih =>
    intro b
    by_cases hbr : strLt b.created_at r.created_at = true
    · have hstep : latestStep (some b) r = some r := by simp [latestStep, hbr]
      obtain ⟨e, he, hmem, hle, hall⟩ := ih r
      refine ⟨e, by rw [List.foldl_cons, hstep]; exact he, ?_, ?_, ?_⟩
      · rcases hmem with h | h
        · exact Or.inr (by rw [h]; exact List.mem_cons_self _ _)
        · exact Or.inr (List.mem_cons_of_mem _ h)
      · cases hEb : strLt e.created_at b.created_at with
        | false => rfl
        | true => exact absurd (strLt_trans hEb hbr) (by simp [hle])
      · intro r2 hr2
        rcases List.mem_cons.1 hr2 with h | h
        · rw [h]; exact hle
        · exact hall r2 h
    · have hbr2 : strLt b.created_at r.created_at = false := by
        cases h : strLt b.created_at r.created_at
        · rfl
        · exact absurd h hbr
      have hstep : latestStep (some b) r = some b := by simp [latestStep, hbr2]
      obtain ⟨e, he, hmem, hle, hall⟩ := ih b
      refine ⟨e, by rw [List.foldl_cons, hstep]; exact he, ?_, hle, ?_⟩
      · rcases hmem with h | h
        · exact Or.inl h
        · exact Or.inr (List.mem_cons_of_mem _ h)
      · intro r2 hr2
        rcases List.mem_cons.1 hr2 with h | h
        · rw [h]
          cases hEr : strLt e.created_at r.created_at with
          | false => rfl
          | true =>
            rcases strLt_trichotomy b.created_at r.created_at with h3 | h3 | h3
            · exact absurd h3 (by simp [hbr2])
            · rw [← h3] at hEr; exact absurd hEr (by simp [hle])
            · exact absurd (strLt_trans hEr h3) (by simp [hle])
        · exact hall r2 h

theorem latestByUrl_spec {db : List PasswordRecord} {url : String} {e : PasswordRecord}
    (h : latestByUrl db url = some e) :
    e ∈ db ∧ e.url = url ∧
      ∀ r ∈ db, r.url = url → strLt e.created_at r.created_at = false := by
  unfold latestByUrl at h
  cases hL : db.filter (fun r => r.url = url) with
  | nil => rw [hL] at h; cases h
  | cons x t =>
    rw [hL, List.foldl_cons, show latestStep none x = some x from rfl] at h
    obtain ⟨e2, he2, hmem, hle, hall⟩ := foldl_latest_spec t x
    rw [he2] at h
    cases h
    have hsub : ∀ y, y ∈ x :: t → y ∈ db ∧ y.url = url := by
      intro y hy
      have hyf : y ∈ db.filter (fun r => r.url = url) := by rw [hL]; exact hy
      have := List.mem_filter.1 hyf
      exact ⟨this.1, of_decide_eq_true this.2⟩
    have hemem : e ∈ x :: t := by
      rcases hmem with h | h
      · rw [h]; exact List.mem_cons_self _ _
      · exact List.mem_cons_of_mem _ h
    refine ⟨(hsub e hemem).1, (hsub e hemem).2, ?_⟩
    intro r hr hurl
    have hrf : r ∈ x :: t := by
      rw [← hL]; exact List.mem_filter.2 ⟨hr, by simp [hurl]⟩
    rcases List.mem_cons.1 hrf with h | h
    · rw [h]; exact hle
    · exact hall r h

theorem latestByUrl_none {db : List PasswordRecord} {url : String} :
    latestByUrl db url = none ↔ ∀ r ∈ db, r.url ≠ url := by
  unfold latestByUrl
  cases hL : db.filter (fun r => r.url = url) with
  | nil =>
    simp only [List.foldl_nil]
    constructor
    · intro _ r hr hurl
      have hrf : r ∈ db.filter (fun r => r.url = url) :=
        List.mem_filter.2 ⟨hr, by simp [hurl]⟩
      rw [hL] at hrf; cases hrf
    · intro _; trivial
  | cons x t =>
    rw [List.foldl_cons, show latestStep none x = some x from rfl]
    obtain ⟨e2, he2, _, _, _⟩ := foldl_latest_spec t x
    rw [he2]
    constructor
    · intro h; cases h
    · intro h
      have hx : x ∈ db.filter (fun r => r.url = url) := by
        rw [hL]; exact List.mem_cons_self _ _
      have := List.mem_filter.1 hx
      exact absurd (of_decide_eq_true this.2) (h x this.1)

/-- C1: for every plaintext, entry id and configured master secret, opening a
blob sealed by `encrypt_for_id` with the key derived from the same
`(secret, id)` pair by `decrypt_for_id` returns the original plaintext. -/
theorem seal_open_roundtrip (secret id pt : String) (nonce : Nat) (ct : Ct)
    (h : encrypt_for_id (some secret) nonce id pt = .ok ct) :
    decrypt_for_id (some secret) id ct = .ok pt := by
  simp only [encrypt_for_id, derive_key_for_id, Except.map] at h
  cases h
  simp [decrypt_for_id, derive_key_for_id, Except.bind]

/-- Witness for `seal_open_roundtrip` at a concrete secret, id and plaintext. -/
theorem seal_open_roundtrip_witness :
    encrypt_for_id (some "s") 7 "id1" "pw" = .ok (Ct.blob 7 ⟨"s", "id1"⟩ "pw") ∧
    decrypt_for_id (some "s") "id1" (Ct.blob 7 ⟨"s", "id1"⟩ "pw") = .ok "pw" :=
  ⟨rfl, seal_open_roundtrip "s" "id1" "pw" 7 (Ct.blob 7 ⟨"s", "id1"⟩ "pw") rfl⟩

/-- C2: a blob sealed under the key derived for one entry id fails to decrypt
under the key derived for any other id of the same master secret, with a
decryption failure. -/
theorem key_isolation (secret i1 i2 pt : String) (nonce : Nat) (ct : Ct)
    (hne : i1 ≠ i2) (h : encrypt_for_id (some secret) nonce i1 pt = .ok ct) :
    decrypt_for_id (some secret) i2 ct = .error .decryptFailure := by
  simp only [encrypt_for_id, derive_key_for_id, Except.map] at h
  cases h
  simp [decrypt_for_id, derive_key_for_id, Except.bind, DerivedKey.mk.injEq, hne]

/-- Witness for `key_isolation` at concrete distinct ids. -/
theorem key_isolation_witness :
    ("idA" : String) ≠ "idB" ∧
    decrypt_for_id (some "s") "idB" (Ct.blob 3 ⟨"s", "idA"⟩ "pw") = .error .decryptFailure :=
  ⟨by decide, key_isolation "s" "idA" "idB" "pw" 3 (Ct.blob 3 ⟨"s", "idA"⟩ "pw")
    (by decide) rfl⟩

/-- C5: after a successful authentication at time `now` with `ttl` minutes the
persisted expiry is `now + ttl * 60`; at any time `t` before the expiry the
status check reports the remaining `expiry - t` seconds and gated operations
pass, and from the expiry onward they fail closed as expired. -/
theorem session_ttl_check (now ttl t : Int) :
    start_session now ttl = some (now + ttl * 60) ∧
    (t < now + ttl * 60 →
      session_status t (start_session now ttl) = some (now + ttl * 60 - t) ∧
      ensure_authenticated t (start_session now ttl) = .ok ()) ∧
    (now + ttl * 60 ≤ t →
      ensure_authenticated t (start_session now ttl) = .error .sessionExpired) := by
  refine ⟨rfl, fun h => ⟨rfl, ?_⟩, fun h => ?_⟩
  · show (if now + ttl * 60 - t ≤ 0 then Except.error VaultErr.sessionExpired
      else Except.ok ()) = Except.ok ()
    rw [if_neg (by omega)]
  · show (if now + ttl * 60 - t ≤ 0 then Except.error VaultErr.sessionExpired
      else Except.ok ()) = Except.error VaultErr.sessionExpired
    rw [if_pos (by omega)]

/-- Witness for `session_ttl_check`: authenticate at 100 with 2 minutes, check
at 150 (active, 70 s remaining) and at 220 (expired). -/
theorem session_ttl_check_witness :
    session_status 150 (start_session 100 2) = some 70 ∧
    ensure_authenticated 150 (start_session 100 2) = .ok () ∧
    ensure_authenticated 220 (start_session 100 2) = .error .sessionExpired := by
  have h1 := session_ttl_check 100 2 150
  have h2 := session_ttl_check 100 2 220
  exact ⟨(h1.2.1 (by decide)).1, (h1.2.1 (by decide)).2, h2.2.2 (by decide)⟩

/-- C6: deleting a credential id always succeeds — removing exactly the
matching rows, hence a no-op when the id is absent — while deleting an absent
passkey id fails with a not-found error and an existing passkey id is removed
exactly. -/
theorem delete_asymmetry (cdb : List PasswordRecord) (pdb : List PasskeyRecord)
    (id : String) :
    ((∀ r ∈ cdb, r.id ≠ id) → delete_entry cdb id = .ok cdb) ∧
    delete_entry cdb id = .ok (cdb.filter (fun r => r.id ≠ id)) ∧
    ((∀ r ∈ pdb, r.id ≠ id) → delete_passkey pdb id = .error (.notFound id)) ∧
    ((∃ r ∈ pdb, r.id = id) → delete_passkey pdb id = .ok (pdb.filter (fun r => r.id ≠ id))) := by
  refine ⟨fun h => ?_, rfl, fun h => ?_, fun h => ?_⟩
  · unfold delete_entry
    congr 1
    exact List.filter_eq_self.2 (fun r hr => by simpa using h r hr)
  · unfold delete_passkey
    rw [if_pos (List.countP_eq_zero.2 (fun r hr => by simpa using h r hr))]
  · unfold delete_passkey
    rw [if_neg]
    intro hc
    obtain ⟨r, hr, hid⟩ := h
    exact (List.countP_eq_zero.1 hc r hr) (by simpa using hid)

/-- Witness for `delete_asymmetry`: a one-row credential store and a one-row
passkey store, with an absent id and the present id. -/
theorem delete_asymmetry_witness :
    delete_entry [⟨"c1", "u", "al", Ct.raw "x", none, none, "t1"⟩] "zz" =
      .ok [⟨"c1", "u", "al", Ct.raw "x", none, none, "t1"⟩] ∧
    delete_passkey [⟨"p1", "rp", "cid", "uh", "pk", 0, none, none, "t1"⟩] "zz" =
      .error (.notFound "zz") ∧
    delete_passkey [⟨"p1", "rp", "cid", "uh", "pk", 0, none, none, "t1"⟩] "p1" =
      .ok [] := by
  have h1 := delete_asymmetry [⟨"c1", "u", "al", Ct.raw "x", none, none, "t1"⟩]
    [⟨"p1", "rp", "cid", "uh", "pk", 0, none, none, "t1"⟩] "zz"
  have h2 := delete_asymmetry ([] : List PasswordRecord)
    [⟨"p1", "rp", "cid", "uh", "pk", 0, none, none, "t1"⟩] "p1"
  refine ⟨h1.1 (by decide), h1.2.2.1 (by decide), ?_⟩
  have := h2.2.2.2 ⟨⟨"p1", "rp", "cid", "uh", "pk", 0, none, none, "t1"⟩, by decide, rfl⟩
  simpa using this

/-- C9: the claim that every path creating a passkey record writes a
non-negative `sign_count` fails on the CSV import path, which stores the
parsed `i64` without the `max(0)` clamp applied by the CLI `passkey add`
path: a row whose `sign_count` column is `"-5"` is inserted with
`sign_count = -5`. -/
theorem import_negative_sign_count :
    import_sign_count (some "-5") = -5 ∧
    cli_sign_count (some "-5") = 0 ∧
    (insert_passkey "pk1" "2026-01-01T00:00:00+00:00" [] "example.org" "cred1"
      "user1" "pubkey" (import_sign_count (some "-5")) none none).2.sign_count < 0 := by
  decide

/-- C3: `insert_password` is an upsert by url.  When a row with the url
exists, the most recent one (maximal `created_at`, characterized by the
second conjunct) is updated in place — username and encrypted password
overwritten, title/note taking a supplied value and otherwise keeping the
existing one, id and `created_at` untouched; when no row has the url, a new
row with the fresh id and current timestamp is appended. -/
theorem insert_password_upsert (secret : String) (nonce : Nat) (freshId now : String)
    (db : List PasswordRecord) (url username pw : String) (title note : Option String) :
    (latestByUrl db url = none ↔ ∀ r ∈ db, r.url ≠ url) ∧
    (∀ e, latestByUrl db url = some e →
      e ∈ db ∧ e.url = url ∧
      (∀ r ∈ db, r.url = url → strLt e.created_at r.created_at = false) ∧
      insert_password (some secret) nonce freshId now db url username pw title note =
        .ok (db.map (fun r : PasswordRecord =>
              if r.id = e.id then
                { r with username := username,
                         password := Ct.blob nonce ⟨secret, e.id⟩ pw,
                         title := match title with | some t => some t | none => e.title,
                         note := match note with | some n => some n | none => e.note }
              else r),
            { id := e.id, url := url, username := username,
              password := Ct.blob nonce ⟨secret, e.id⟩ pw,
              title := match title with | some t => some t | none => e.title,
              note := match note with | some n => some n | none => e.note,
              created_at := e.created_at }) ∧
      decrypt_for_id (some secret) e.id (Ct.blob nonce ⟨secret, e.id⟩ pw) = .ok pw) ∧
    (latestByUrl db url = none →
      insert_password (some secret) nonce freshId now db url username pw title note =
        .ok (db ++ [{ id := freshId, url := url, username := username,
                      password := Ct.blob nonce ⟨secret, freshId⟩ pw,
                      title := title, note := note, created_at := now }],
             { id := freshId, url := url, username := username,
               password := Ct.blob nonce ⟨secret, freshId⟩ pw,
               title := title, note := note, created_at := now }) ∧
      decrypt_for_id (some secret) freshId (Ct.blob nonce ⟨secret, freshId⟩ pw) = .ok pw) := by
  refine ⟨latestByUrl_none, fun e he => ?_, fun h => ?_⟩
  · obtain ⟨hmem, hurl, hmax⟩ := latestByUrl_spec he
    refine ⟨hmem, hurl, hmax, ?_, ?_⟩
    · unfold insert_password
      rw [he]
      rfl
    · simp [decrypt_for_id, derive_key_for_id, Except.bind]
  · refine ⟨?_, ?_⟩
    · unfold insert_password
      rw [h]
      rfl
    · simp [decrypt_for_id, derive_key_for_id, Except.bind]

/-- Witness for `insert_password_upsert`: a second `add` to the same url
overwrites username/password, keeps the existing title, adopts the new note
and preserves id and `created_at`; an `add` to an empty store inserts a fresh
row. -/
theorem insert_password_upsert_witness :
    insert_password (some "s") 5 "fresh" "2026"
      [⟨"idA", "example.com", "alice", Ct.blob 1 ⟨"s", "idA"⟩ "old", some "T", none, "2024"⟩]
      "example.com" "bob" "pw2" none (some "N") =
      .ok ([⟨"idA", "example.com", "bob", Ct.blob 5 ⟨"s", "idA"⟩ "pw2", some "T", some "N", "2024"⟩],
           ⟨"idA", "example.com", "bob", Ct.blob 5 ⟨"s", "idA"⟩ "pw2", some "T", some "N", "2024"⟩) ∧
    decrypt_for_id (some "s") "idA" (Ct.blob 5 ⟨"s", "idA"⟩ "pw2") = .ok "pw2" ∧
    insert_password (some "s") 5 "fresh" "2026" [] "example.com" "bob" "pw2" none (some "N") =
      .ok ([⟨"fresh", "example.com", "bob", Ct.blob 5 ⟨"s", "fresh"⟩ "pw2", none, some "N", "2026"⟩],
           ⟨"fresh", "example.com", "bob", Ct.blob 5 ⟨"s", "fresh"⟩ "pw2", none, some "N", "2026"⟩) := by
  have h1 := (insert_password_upsert "s" 5 "fresh" "2026"
    [⟨"idA", "example.com", "alice", Ct.blob 1 ⟨"s", "idA"⟩ "old", some "T", none, "2024"⟩]
    "example.com" "bob" "pw2" none (some "N")).2.1
    ⟨"idA", "example.com", "alice", Ct.blob 1 ⟨"s", "idA"⟩ "old", some "T", none, "2024"⟩ rfl
  have h2 := (insert_password_upsert "s" 5 "fresh" "2026" []
    "example.com" "bob" "pw2" none (some "N")).2.2 rfl
  exact ⟨h1.2.2.2.1, h1.2.2.2.2, h2.1⟩

/-- C4: `update_entry` fails with a not-found error when no row has the id;
otherwise exactly the supplied optional fields change — url/username/title/
note take a supplied value and otherwise keep the current one, a supplied
password is re-encrypted under the key derived from the row's own unchanged
id, an unsupplied password keeps the exact stored ciphertext — and every
row's id and `created_at` are untouched. -/
theorem update_entry_frame (secret : String) (nonce : Nat) (db : List PasswordRecord)
    (id : String) (url username password title note : Option String) :
    (db.find? (fun r => r.id = id) = none →
      update_entry (some secret) nonce db id url username password title note =
        .error (.notFound id)) ∧
    (∀ cur, db.find? (fun r => r.id = id) = some cur →
      update_entry (some secret) nonce db id url username password title note =
        .ok (db.map (fun r : PasswordRecord =>
              if r.id = id then
                { r with
                    url := url.getD cur.url,
                    username := username.getD cur.username,
                    password := match password with
                      | some v => Ct.blob nonce ⟨secret, cur.id⟩ v
                      | none => cur.password,
                    title := match title with | some v => some v | none => cur.title,
                    note := match note with | some v => some v | none => cur.note }
              else r),
            { id := cur.id,
              url := url.getD cur.url,
              username := username.getD cur.username,
              password := match password with
                | some v => Ct.blob nonce ⟨secret, cur.id⟩ v
                | none => cur.password,
              title := match title with | some v => some v | none => cur.title,
              note := match note with | some v => some v | none => cur.note,
              created_at := cur.created_at }) ∧
      ∀ v, password = some v →
        decrypt_for_id (some secret) cur.id (Ct.blob nonce ⟨secret, cur.id⟩ v) = .ok v) := by
  refine ⟨fun h => ?_, fun cur hc => ⟨?_, fun v hv => ?_⟩⟩
  · unfold update_entry
    rw [h]
  · unfold update_entry
    rw [hc]
    cases password with
    | none => rfl
    | some v => rfl
  · simp [decrypt_for_id, derive_key_for_id, Except.bind]

/-- Witness for `update_entry_frame`: updating only the url leaves note and
the stored password ciphertext unchanged, and updating an absent id fails. -/
theorem update_entry_frame_witness :
    update_entry (some "s") 9
      [⟨"idB", "old.com", "carol", Ct.blob 2 ⟨"s", "idB"⟩ "oldpw", none, some "N", "2024"⟩]
      "idB" (some "new.com") none none none none =
      .ok ([⟨"idB", "new.com", "carol", Ct.blob 2 ⟨"s", "idB"⟩ "oldpw", none, some "N", "2024"⟩],
           ⟨"idB", "new.com", "carol", Ct.blob 2 ⟨"s", "idB"⟩ "oldpw", none, some "N", "2024"⟩) ∧
    update_entry (some "s") 9
      [⟨"idB", "old.com", "carol", Ct.blob 2 ⟨"s", "idB"⟩ "oldpw", none, some "N", "2024"⟩]
      "zz" (some "new.com") none none none none = .error (.notFound "zz") := by
  have h1 := (update_entry_frame "s" 9
    [⟨"idB", "old.com", "carol", Ct.blob 2 ⟨"s", "idB"⟩ "oldpw", none, some "N", "2024"⟩]
    "idB" (some "new.com") none none none none).2
    ⟨"idB", "old.com", "carol", Ct.blob 2 ⟨"s", "idB"⟩ "oldpw", none, some "N", "2024"⟩ rfl
  have h2 := (update_entry_frame "s" 9
    [⟨"idB", "old.com", "carol", Ct.blob 2 ⟨"s", "idB"⟩ "oldpw", none, some "N", "2024"⟩]
    "zz" (some "new.com") none none none none).1 rfl
  exact ⟨h1.1, h2⟩

theorem rand_index_lt (v : Nat) {len : Nat} (h : 0 < len) : rand_index v len < len := by
  unfold rand_index
  split
  · exact h
  · exact Nat.mod_lt _ h

theorem pickFrom_mem (v : Nat) {cs : List Char} (h : 0 < cs.length) : pickFrom v cs ∈ cs := by
  unfold pickFrom
  have hlt := rand_index_lt v h
  rw [List.getD_eq_getElem?_getD, List.getElem?_eq_getElem hlt]
  exact List.getElem_mem hlt

theorem cons_set_perm {α : Type _} : ∀ (t : List α) (m : Nat) (a : α) (hm : m < t.length),
    (t.get ⟨m, hm⟩ :: t.set m a).Perm (a :: t)
  | [], m, a, hm => absurd hm (by simp)
  | b :: s, 0, a, _ => List.Perm.swap a b s
  | b :: s, m + 1, a, hm => by
    have hm2 : m < s.length := Nat.lt_of_succ_lt_succ hm
    have ih := cons_set_perm s m a hm2
    exact (List.Perm.swap b (s.get ⟨m, hm2⟩) (s.set m a)).trans
      ((ih.cons b).trans (List.Perm.swap a b s))

theorem set_set_perm {α : Type _} : ∀ (l : List α) (i j : Nat) (hi : i < l.length)
    (hj : j < l.length), ((l.set i (l.get ⟨j, hj⟩)).set j (l.get ⟨i, hi⟩)).Perm l
  | [], i, _, hi, _ => absurd hi (by simp)
  | a :: t, 0, 0, _, _ => List.Perm.refl _
  | a :: t, 0, j + 1, hi, hj => by
    have hj2 : j < t.length := Nat.lt_of_succ_lt_succ hj
    exact cons_set_perm t j a hj2
  | a :: t, i + 1, 0, hi, hj => by
    have hi2 : i < t.length := Nat.lt_of_succ_lt_succ hi
    exact cons_set_perm t i a hi2
  | a :: t, i + 1, j + 1, hi, hj => by
    have hi2 : i < t.length := Nat.lt_of_succ_lt_succ hi
    have hj2 : j < t.length := Nat.lt_of_succ_lt_succ hj
    exact (set_set_perm t i j hi2 hj2).cons a

theorem listSwap_perm (l : List Char) (i j : Nat) (hi : i < l.length) (hj : j < l.length) :
    (listSwap l i j).Perm l := by
  unfold listSwap
  have h1 : l.getD j 'A' = l.get ⟨j, hj⟩ := by
    rw [List.getD_eq_getElem?_getD, List.getElem?_eq_getElem hj]; rfl
  have h2 : l.getD i 'A' = l.get ⟨i, hi⟩ := by
    rw [List.getD_eq_getElem?_getD, List.getElem?_eq_getElem hi]; rfl
  rw [h1, h2]
  exact set_set_perm l i j hi hj

theorem listSwap_length (l : List Char) (i j : Nat) : (listSwap l i j).length = l.length := by
  simp [listSwap]

theorem fyAux_perm (rng : Nat → Nat) : ∀ (i ctr : Nat) (l : List Char),
    i < l.length → (fyAux rng ctr l i).Perm l
  | 0, _, l, _ => List.Perm.refl l
  | i + 1, ctr, l, h => by
    have hj : rand_index (rng ctr) (i + 2) < l.length := by
      have := rand_index_lt (rng ctr) (show 0 < i + 2 by omega)
      omega
    have hlen : (listSwap l (i + 1) (rand_index (rng ctr) (i + 2))).length = l.length :=
      listSwap_length _ _ _
    have ihp := fyAux_perm rng i (ctr + 1)
      (listSwap l (i + 1) (rand_index (rng ctr) (i + 2))) (by omega)
    exact ihp.trans (listSwap_perm l _ _ h hj)

theorem fisher_yates_perm (rng : Nat → Nat) (ctr : Nat) (l : List Char) :
    (fisher_yates_shuffle rng ctr l).Perm l := by
  unfold fisher_yates_shuffle
  split
  · exact List.Perm.refl l
  · next h => exact fyAux_perm rng (l.length - 1) ctr l (by omega)

theorem catPicks_length (rng : Nat → Nat) (len : Nat) :
    (catPicks rng len).length = min 3 len := by
  simp [catPicks]

theorem fillPicks_length (rng : Nat → Nat) (start cnt : Nat) :
    (fillPicks rng start cnt).length = cnt := by
  simp [fillPicks]

theorem genBytes_perm (rng : Nat → Nat) (len : Nat) (h : len ≠ 0) :
    (genBytes rng len).Perm
      (catPicks rng len ++ fillPicks rng (min 3 len) (len - min 3 len)) := by
  unfold genBytes
  rw [if_neg h]
  exact fisher_yates_perm _ _ _

theorem genBytes_length (rng : Nat → Nat) (len : Nat) : (genBytes rng len).length = len := by
  by_cases h : len = 0
  · subst h; rfl
  · rw [(genBytes_perm rng len h).length_eq]
    simp only [List.length_append, catPicks_length, fillPicks_length]
    omega

theorem mem_alphabet_of_UPPER {c : Char} (h : c ∈ UPPER) : c ∈ alphabet := by
  unfold alphabet
  exact List.mem_append_left _ (List.mem_append_left _ h)

theorem mem_alphabet_of_LOWER {c : Char} (h : c ∈ LOWER) : c ∈ alphabet := by
  unfold alphabet
  exact List.mem_append_left _ (List.mem_append_right _ h)

theorem mem_alphabet_of_DIGIT {c : Char} (h : c ∈ DIGIT) : c ∈ alphabet := by
  unfold alphabet
  exact List.mem_append_right _ h

theorem catPicks_mem_alphabet (rng : Nat → Nat) (len : Nat) :
    ∀ c ∈ catPicks rng len, c ∈ alphabet := by
  intro c hc
  simp only [catPicks, List.mem_map] at hc
  obtain ⟨i, hi, hpc⟩ := hc
  have hi3 : i < 3 := lt_of_lt_of_le (List.mem_range.1 hi) (min_le_left _ _)
  rw [← hpc]
  interval_cases i
  · exact mem_alphabet_of_UPPER (@pickFrom_mem (rng 0) UPPER (by decide))
  · exact mem_alphabet_of_LOWER (@pickFrom_mem (rng 1) LOWER (by decide))
  · exact mem_alphabet_of_DIGIT (@pickFrom_mem (rng 2) DIGIT (by decide))

theorem fillPicks_mem_alphabet (rng : Nat → Nat) (start cnt : Nat) :
    ∀ c ∈ fillPicks rng start cnt, c ∈ alphabet := by
  intro c hc
  simp only [fillPicks, List.mem_map] at hc
  obtain ⟨i, _, hpc⟩ := hc
  rw [← hpc]
  exact pickFrom_mem _ (by decide)

theorem genBytes_mem_alphabet (rng : Nat → Nat) (len : Nat) :
    ∀ c ∈ genBytes rng len, c ∈ alphabet := by
  intro c hc
  by_cases h : len = 0
  · subst h; cases hc
  · rcases List.mem_append.1 ((genBytes_perm rng len h).mem_iff.1 hc) with h2 | h2
    · exact catPicks_mem_alphabet _ _ c h2
    · exact fillPicks_mem_alphabet _ _ _ c h2

theorem catPicks_eq_of_ge3 (rng : Nat → Nat) (len : Nat) (h : 3 ≤ len) :
    catPicks rng len =
      [pickFrom (rng 0) UPPER, pickFrom (rng 1) LOWER, pickFrom (rng 2) DIGIT] := by
  unfold catPicks
  rw [min_eq_left h]
  rfl

theorem genBytes_cats (rng : Nat → Nat) (len : Nat) (h : 3 ≤ len) :
    (∃ c ∈ genBytes rng len, c ∈ UPPER) ∧ (∃ c ∈ genBytes rng len, c ∈ LOWER) ∧
      (∃ c ∈ genBytes rng len, c ∈ DIGIT) := by
  have hne : len ≠ 0 := by omega
  have hperm := genBytes_perm rng len hne
  have hcat := catPicks_eq_of_ge3 rng len h
  refine ⟨⟨pickFrom (rng 0) UPPER, ?_, pickFrom_mem _ (by decide)⟩,
          ⟨pickFrom (rng 1) LOWER, ?_, pickFrom_mem _ (by decide)⟩,
          ⟨pickFrom (rng 2) DIGIT, ?_, pickFrom_mem _ (by decide)⟩⟩ <;>
  · apply hperm.mem_iff.2
    apply List.mem_append_left
    rw [hcat]
    simp

/-- C10: `generate_password` returns exactly `len` characters drawn only from
ASCII uppercase, lowercase and digit characters; it returns the empty string
for `len = 0`, and for `len ≥ 3` the result contains at least one character
of each of the three categories. -/
theorem generate_password_spec (rng : Nat → Nat) (len : Nat) :
    (generate_password rng len).length = len ∧
    (len = 0 → generate_password rng len = "") ∧
    (∀ c ∈ (generate_password rng len).data, c ∈ UPPER ∨ c ∈ LOWER ∨ c ∈ DIGIT) ∧
    (3 ≤ len →
      (∃ c ∈ (generate_password rng len).data, c ∈ UPPER) ∧
      (∃ c ∈ (generate_password rng len).data, c ∈ LOWER) ∧
      (∃ c ∈ (generate_password rng len).data, c ∈ DIGIT)) := by
  refine ⟨genBytes_length rng len, ?_, ?_, genBytes_cats rng len⟩
  · intro h; subst h; rfl
  · intro c hc
    have := genBytes_mem_alphabet rng len c hc
    simpa [alphabet] using this

/-- Witness for `generate_password_spec` at `len = 4` and `len = 0` with a
concrete rng stream. -/
theorem generate_password_spec_witness :
    (generate_password (fun k => k) 4).length = 4 ∧
    generate_password (fun k => k) 0 = "" ∧
    (∃ c ∈ (generate_password (fun k => k) 4).data, c ∈ UPPER) ∧
    (∃ c ∈ (generate_password (fun k => k) 4).data, c ∈ LOWER) ∧
    (∃ c ∈ (generate_password (fun k => k) 4).data, c ∈ DIGIT) := by
  have h4 := generate_password_spec (fun k => k) 4
  have h0 := generate_password_spec (fun k => k) 0
  exact ⟨h4.1, h0.2.1 rfl, (h4.2.2.2 (by omega)).1, (h4.2.2.2 (by omega)).2.1,
    (h4.2.2.2 (by omega)).2.2⟩

/-- C8 (amended): the `add` command's third argument generates a password
exactly when it parses as an unsigned 64-bit integer `n` — of length
`max n 1`, so `"0"` yields a generated 1-character password rather than the
verbatim string — and any argument that does not parse (negative numbers,
non-numeric strings, out-of-range values) is stored verbatim. -/
theorem add_arg_password_choice (rng : Nat → Nat) (s : String) :
    (∀ n, parseUsize s = some n →
      add_password_arg rng s = generate_password rng (max n 1) ∧
      (add_password_arg rng s).length = max n 1) ∧
    (parseUsize s = none → add_password_arg rng s = s) := by
  refine ⟨fun n hn => ?_, fun hn => ?_⟩
  · unfold add_password_arg
    rw [hn]
    exact ⟨rfl, genBytes_length rng (max n 1)⟩
  · unfold add_password_arg
    rw [hn]

/-- Witness for `add_arg_password_choice`: `"5"` generates a 5-character
password and `"hunter2"` is stored verbatim. -/
theorem add_arg_password_choice_witness :
    (add_password_arg (fun _ => 0) "5" = generate_password (fun _ => 0) 5 ∧
      (add_password_arg (fun _ => 0) "5").length = 5) ∧
    add_password_arg (fun _ => 0) "hunter2" = "hunter2" := by
  have h1 := add_arg_password_choice (fun _ => 0) "5"
  have h2 := add_arg_password_choice (fun _ => 0) "hunter2"
  exact ⟨h1.1 5 (by decide), h2.2 (by decide)⟩

/-- C8 counterexample: `"0"` parses as the integer 0, which is not a positive
integer, yet the stored password is a freshly generated 1-character password
(here `"A"`), not the verbatim string `"0"` — the code applies
`generate_password(n.max(1))` to every parsed integer, including 0. -/
theorem add_arg_zero_not_verbatim :
    parseUsize "0" = some 0 ∧
    add_password_arg (fun _ => 0) "0" = "A" ∧
    add_password_arg (fun _ => 0) "0" ≠ "0" := by decide

/-- C7: a stored credential whose password field fails to decrypt (malformed
blob, wrong key, or missing secret) is still returned by every read path —
`fetch_by_url`, `search_entries` and `export_csv` — with the raw stored
ciphertext string in the password position; no read path fails as a whole. -/
theorem decrypt_fallback_reads (secret : Option String) (db : List PasswordRecord)
    (url kw : String) (r : PasswordRecord) (hr : r ∈ db) (e : VaultErr)
    (hfail : decrypt_for_id secret r.id r.password = .error e) :
    (r.url = url →
      (r.username, r.password.stored, r.title, r.note) ∈ fetch_by_url secret db url) ∧
    (matchesKeyword r kw = true →
      (r.id, r.url, r.username, r.password.stored, r.title, r.note) ∈
        search_entries secret db kw) ∧
    [r.id, r.url, r.username, r.password.stored, r.title.getD "", r.note.getD "",
      r.created_at] ∈ export_csv secret db := by
  have hpw : pwShown secret r = r.password.stored := by
    unfold pwShown; rw [hfail]
  refine ⟨fun hu => ?_, fun hm => ?_, ?_⟩
  · unfold fetch_by_url
    exact List.mem_map.2 ⟨r, List.mem_filter.2 ⟨hr, by simp [hu]⟩, by rw [hpw]⟩
  · unfold search_entries
    exact List.mem_mergeSort.2
      (List.mem_map.2 ⟨r, List.mem_filter.2 ⟨hr, hm⟩, by rw [hpw]⟩)
  · unfold export_csv
    exact List.mem_cons.2 (Or.inr
      (List.mem_map.2 ⟨r, List.mem_mergeSort.2 hr, by rw [hpw]⟩))

/-- Witness for `decrypt_fallback_reads`: a row whose stored password is the
undecryptable string `"garbage"` is surfaced verbatim by all three read
paths. -/
theorem decrypt_fallback_reads_witness :
    ("dave", "garbage", some "T", (none : Option String)) ∈
      fetch_by_url (some "s") [⟨"idC", "u.com", "dave", Ct.raw "garbage", some "T", none, "2024"⟩] "u.com" ∧
    ("idC", "u.com", "dave", "garbage", some "T", (none : Option String)) ∈
      search_entries (some "s") [⟨"idC", "u.com", "dave", Ct.raw "garbage", some "T", none, "2024"⟩] "idC" ∧
    ["idC", "u.com", "dave", "garbage", "T", "", "2024"] ∈
      export_csv (some "s") [⟨"idC", "u.com", "dave", Ct.raw "garbage", some "T", none, "2024"⟩] := by
  have h := decrypt_fallback_reads (some "s")
    [⟨"idC", "u.com", "dave", Ct.raw "garbage", some "T", none, "2024"⟩]
    "u.com" "idC" ⟨"idC", "u.com", "dave", Ct.raw "garbage", some "T", none, "2024"⟩
    (by decide) VaultErr.malformedCiphertext rfl
  exact ⟨h.1 rfl, h.2.1 (by decide), h.2.2⟩

end Tsupasswd
